import Mathlib

/-!
Shallow embedding of the reservoir-sampling session service
(package `reservoir` in `service/reservoir/state.go`, the `api` package,
and the `server` package handlers / job processing).

Modelling conventions:
* Go `int` fields (`k`, `n`, reservoir elements) are modelled as `Int`;
  64-bit overflow of these counters is not modelled (it would require
  about 2^63 updates to a single session).
* Go `uint64` session identifiers and the allocator counter are modelled
  as `Nat` values kept below `2 ^ 64`; the allocator increment wraps with
  an explicit `% 2 ^ 64`, matching `atomic.AddUint64` semantics.
* The two Go maps (`sessionToReservoir`, `sessionToSessionLock`) are
  modelled as an association list and a key list; map assignment
  overwrites, map deletion removes, map lookup returns the entry of the
  key if present.
* Sequential semantics pass the whole `ReservoirState` explicitly; a
  store operation returns its result together with the new state.
* A Go runtime panic (nil-pointer dereference when a reservoir entry is
  missing, `rand.Intn` called with a non-positive argument, slice write
  out of bounds) is modelled as the result `none`.
* `rand.Intn(m)` returns a uniformly random integer in `[0, m)`; the
  draw is modelled by passing the drawn value `r` as an explicit
  argument, with hypotheses `0 ≤ r` (and `r < m` where relevant)
  expressing the contract of the generator.
-/

namespace ReservoirService

/-- `Reservoir` from `state.go`: the K current integers in `data`,
the initial value `k` of K, and the increasing value `n` of N. -/
structure Reservoir where
  data : List Int
  k : Int
  n : Int
deriving DecidableEq, Repr

/-- `ReservoirState` from `state.go`: the map from session id to
reservoir, the key set of the map from session id to per-session lock
(the `sync.RWMutex` values carry no sequentially observable state), and
the `nextSessionID` counter. -/
structure ReservoirState where
  sessionToReservoir : List (Nat × Reservoir)
  sessionToSessionLock : List Nat
  nextSessionID : Nat
deriving DecidableEq, Repr

/-- Go map lookup `m[sid]` on the reservoir map: the entry of `sid`
if present, otherwise `none` (the zero value, a nil pointer). -/
def lookupRes : List (Nat × Reservoir) → Nat → Option Reservoir
  | [], _ => none
  | (id, res) :: rest, sid => if id = sid then some res else lookupRes rest sid

/-- Go map deletion `delete(m, sid)` on the reservoir map. -/
def eraseRes : List (Nat × Reservoir) → Nat → List (Nat × Reservoir)
  | [], _ => []
  | (id, res) :: rest, sid =>
    if id = sid then eraseRes rest sid else (id, res) :: eraseRes rest sid

/-- Go map assignment `m[sid] = res` on the reservoir map
(overwrites any existing entry). -/
def insertRes (m : List (Nat × Reservoir)) (sid : Nat) (res : Reservoir) :
    List (Nat × Reservoir) :=
  (sid, res) :: eraseRes m sid

/-- Go map deletion `delete(m, sid)` on the key set of the lock map. -/
def eraseLock : List Nat → Nat → List Nat
  | [], _ => []
  | x :: rest, sid => if x = sid then eraseLock rest sid else x :: eraseLock rest sid

/-- Go map assignment `m[sid] = sync.RWMutex\x7b\x7d` on the key set of
the lock map. -/
def insertLock (l : List Nat) (sid : Nat) : List Nat :=
  if sid ∈ l then l else sid :: l

/-- `2 ^ 64`, the modulus of Go `uint64` arithmetic. -/
def UINT64_CARD : Nat := 2 ^ 64

/-- `NewReservoirState` from `state.go`: empty maps,
`initialSessionID := uint64(1)`. -/
def NewReservoirState : ReservoirState :=
  { sessionToReservoir := []
    sessionToSessionLock := []
    nextSessionID := 1 }

/-- `AtomicGetSessionIDAndIncrement` from `state.go`, sequentially:
returns the current `nextSessionID` (the pre-increment value) and the
state with the counter incremented, wrapping as `uint64` does. -/
def AtomicGetSessionIDAndIncrement (s : ReservoirState) : Nat × ReservoirState :=
  (s.nextSessionID,
    { s with nextSessionID := (s.nextSessionID + 1) % UINT64_CARD })

/-- `AtomicCreateReservoir` from `state.go`: build a reservoir with
`data = reservoir`, `k = n = len(reservoir)`, allocate a session id,
store the reservoir under it and add the per-session lock entry. -/
def AtomicCreateReservoir (s : ReservoirState) (reservoir : List Int) :
    Nat × ReservoirState :=
  let res : Reservoir :=
    { data := reservoir, k := (reservoir.length : Int), n := (reservoir.length : Int) }
  let p := AtomicGetSessionIDAndIncrement s
  (p.1,
    { p.2 with
      sessionToReservoir := insertRes p.2.sessionToReservoir p.1 res
      sessionToSessionLock := insertLock p.2.sessionToSessionLock p.1 })

/-- Result of `AtomicUpdateReservoir`: success with the new state, or
the `NotFound` error with the (unchanged) state. -/
inductive UpdateResult where
  | ok (s : ReservoirState)
  | notFound (msg : String) (s : ReservoirState)
deriving DecidableEq, Repr

/-- The state carried by an `UpdateResult`. -/
def UpdateResult.state : UpdateResult → ReservoirState
  | .ok s => s
  | .notFound _ s => s

/-- Go slice write `xs[i] = v`: panics (modelled as `none`) unless
`0 ≤ i < len(xs)`. -/
def setInt (xs : List Int) (i : Int) (v : Int) : Option (List Int) :=
  if 0 ≤ i ∧ i < (xs.length : Int) then some (xs.set i.toNat v) else none

/-- `AtomicUpdateReservoir` from `state.go`, sequentially. `r` is the
value drawn by `rand.Intn(reservoir.n)` after the increment of `n`.
Following the source: look the session up in the lock map; if absent
return the `NotFound` error with the state unchanged. Otherwise read the
reservoir from the reservoir map (a missing entry is a nil pointer and
`reservoir.n += 1` panics: `none`), increment `n`, draw
(`rand.Intn` panics when its argument is not positive: `none`), and if
the drawn index is below `k` write `data[randomIndex] = integerToAdd`
(out of bounds panics: `none`). -/
def AtomicUpdateReservoir (s : ReservoirState) (sessionID : Nat)
    (integerToAdd : Int) (r : Int) : Option UpdateResult :=
  if sessionID ∈ s.sessionToSessionLock then
    match lookupRes s.sessionToReservoir sessionID with
    | none => none
    | some reservoir =>
      let n1 := reservoir.n + 1
      if n1 ≤ 0 then none
      else if r < reservoir.k then
        match setInt reservoir.data r integerToAdd with
        | none => none
        | some d =>
          let m2 := insertRes s.sessionToReservoir sessionID (Reservoir.mk d reservoir.k n1)
          some (UpdateResult.ok { s with sessionToReservoir := m2 })
      else
        let m2 := insertRes s.sessionToReservoir sessionID
          (Reservoir.mk reservoir.data reservoir.k n1)
        some (UpdateResult.ok { s with sessionToReservoir := m2 })
  else
    some (UpdateResult.notFound
      ("Session ID " ++ toString sessionID ++ " not found.") s)

/-- Result of `AtomicEndReservoirSession`: the final data with the new
state, or the `NotFound` error with the (unchanged) state. -/
inductive EndResult where
  | ok (data : List Int) (s : ReservoirState)
  | notFound (msg : String) (s : ReservoirState)
deriving DecidableEq, Repr

/-- The state carried by an `EndResult`. -/
def EndResult.state : EndResult → ReservoirState
  | .ok _ s => s
  | .notFound _ s => s

/-- `AtomicEndReservoirSession` from `state.go`, sequentially: look the
session up in the lock map; if absent return the `NotFound` error with
the state unchanged. Otherwise read the reservoir (a missing entry is a
nil pointer and `reservoir.data` panics: `none`), capture its data,
delete the session from the reservoir map and from the lock map, and
return the captured data. -/
def AtomicEndReservoirSession (s : ReservoirState) (sessionID : Nat) :
    Option EndResult :=
  if sessionID ∈ s.sessionToSessionLock then
    match lookupRes s.sessionToReservoir sessionID with
    | none => none
    | some reservoir =>
      some (EndResult.ok reservoir.data
        { s with
          sessionToReservoir := eraseRes s.sessionToReservoir sessionID
          sessionToSessionLock := eraseLock s.sessionToSessionLock sessionID })
  else
    some (EndResult.notFound
      ("Session ID " ++ toString sessionID ++ " not found.") s)

/-- `api.BeginSession`: `state.AtomicCreateReservoir(initialReservoir)`.
Its Go error result is always `nil`, so the model returns just the
session id and the new state. -/
def BeginSession (s : ReservoirState) (initialReservoir : List Int) :
    Nat × ReservoirState :=
  AtomicCreateReservoir s initialReservoir

/-- An observable write into the `http.ResponseWriter`, in the order the
handler and the job processing perform them: `http.Error` with status
400, `WriteHeader(http.StatusOK)`, or the JSON body carrying the new
session id. -/
inductive HttpWrite where
  | badRequest (msg : String)
  | okStatus
  | body (sessionID : Nat)
deriving DecidableEq, Repr

/-- `JobBeginSession.Process` from the server package:
`api.BeginSession` never returns an error, and `json.Marshal` of a
`uint64` struct never fails, so processing writes the OK status and the
JSON body with the session id. -/
def processBeginSession (s : ReservoirState) (reservoir : List Int) :
    List HttpWrite × Nat × ReservoirState :=
  let p := BeginSession s reservoir
  ([HttpWrite.okStatus, HttpWrite.body p.1], p.1, p.2)

/-- `beginHandler` from the server package composed with the processing
of the enqueued `JobBeginSession` (the handler blocks on the done
channel until the job completes). `parseOk` is whether `json.Unmarshal`
succeeded. Following the source: on a parse error, `http.Error` with
status 400 is written but execution falls through; when
`len(req.Reservoir) == 0` (which includes the empty initial sequence),
`http.Error` with status 400 is written but execution again falls
through; in every case the job is enqueued and processed, creating the
session and writing the OK status and the session id. Returns the write
sequence, the new session id and the new state. -/
def beginHandler (parseOk : Bool) (reservoir : List Int) (s : ReservoirState) :
    List HttpWrite × Nat × ReservoirState :=
  let errs1 : List HttpWrite :=
    if parseOk then []
    else [HttpWrite.badRequest
      "Invalid input: make sure the input matches specifications."]
  let errs2 : List HttpWrite :=
    if reservoir.length = 0
    then [HttpWrite.badRequest "Missing input: initial K integers for reservoir."]
    else []
  let p := processBeginSession s reservoir
  (errs1 ++ errs2 ++ p.1, p.2.1, p.2.2)

/-!
Interleaving model of two concurrent calls of
`AtomicGetSessionIDAndIncrement`. The Go body is the two separate
atomic operations `sessionID := atomic.LoadUint64(state.nextSessionID)`
followed by `atomic.AddUint64(state.nextSessionID, 1)`; each step is
individually atomic, so a concurrent execution is an interleaving of
the two steps of each caller, in program order.
-/

/-- Shared allocator counter plus the local `sessionID` variable of
each of the two callers (`none` before its `Load` executes). -/
structure AllocRace where
  counter : Nat
  loaded1 : Option Nat
  loaded2 : Option Nat
deriving DecidableEq, Repr

/-- One atomic step of one of the two callers: its `Load` or its
`Add`. -/
inductive AllocStep where
  | load1
  | add1
  | load2
  | add2
deriving DecidableEq, Repr

/-- Effect of a single atomic step on the shared counter and the local
variables. -/
def allocRaceStep (st : AllocRace) : AllocStep → AllocRace
  | .load1 => { st with loaded1 := some st.counter }
  | .add1 => { st with counter := (st.counter + 1) % UINT64_CARD }
  | .load2 => { st with loaded2 := some st.counter }
  | .add2 => { st with counter := (st.counter + 1) % UINT64_CARD }

/-- Run a schedule (a list of atomic steps). -/
def allocRaceRun (st : AllocRace) : List AllocStep → AllocRace
  | [] => st
  | e :: es => allocRaceRun (allocRaceStep st e) es

/-- A schedule is a valid concurrent execution of the two calls when
each caller performs its `Load` then its `Add`, each exactly once, in
program order. -/
def allocSchedValid (sched : List AllocStep) : Prop :=
  sched.filter (fun e => e == AllocStep.load1 || e == AllocStep.add1) =
    [AllocStep.load1, AllocStep.add1] ∧
  sched.filter (fun e => e == AllocStep.load2 || e == AllocStep.add2) =
    [AllocStep.load2, AllocStep.add2]

instance (sched : List AllocStep) : Decidable (allocSchedValid sched) := by
  unfold allocSchedValid; exact instDecidableAnd

/-!
Interleaving model of two concurrent calls of `AtomicUpdateReservoir`
on the same session. The Go code reads
`reservoirLock, found := state.sessionToSessionLock[sessionID]`: the map
holds `sync.RWMutex` values, so the map read copies the (unlocked)
mutex into the local variable `reservoirLock`, and
`reservoirLock.Lock()` locks only that private copy. The shared
increment `reservoir.n += 1` is a non-atomic read-modify-write of the
shared reservoir. Each thread therefore executes, on its own copy of
the lock: lock the copy, read `n`, write the read value plus one back
to `n`, unlock the copy. -/

/-- Shared `reservoir.n` plus, for each of the two threads, its private
copy of the session mutex (`true` = locked) and the value its
read-modify-write has read from `n` (`none` before the read). -/
structure UpdateRace where
  n : Int
  lock1 : Bool
  read1 : Option Int
  lock2 : Bool
  read2 : Option Int
deriving DecidableEq, Repr

/-- One step of one of the two threads. -/
inductive UpdateStep where
  | lockA
  | readA
  | writeA
  | unlockA
  | lockB
  | readB
  | writeB
  | unlockB
deriving DecidableEq, Repr

/-- Effect of one step; `none` when the step is not enabled (locking an
already-locked mutex blocks). Each `lock` step consults only that
thread's own copy of the mutex, because the map read copied the mutex
by value. -/
def updateRaceStep (st : UpdateRace) : UpdateStep → Option UpdateRace
  | .lockA => if st.lock1 then none else some { st with lock1 := true }
  | .readA =>
    if st.lock1 then some { st with read1 := some st.n } else none
  | .writeA =>
    match st.read1 with
    | some v => some { st with n := v + 1 }
    | none => none
  | .unlockA => if st.lock1 then some { st with lock1 := false } else none
  | .lockB => if st.lock2 then none else some { st with lock2 := true }
  | .readB =>
    if st.lock2 then some { st with read2 := some st.n } else none
  | .writeB =>
    match st.read2 with
    | some v => some { st with n := v + 1 }
    | none => none
  | .unlockB => if st.lock2 then some { st with lock2 := false } else none

/-- Run a schedule of steps; `none` if some step is not enabled. -/
def updateRaceRun (st : UpdateRace) : List UpdateStep → Option UpdateRace
  | [] => some st
  | e :: es =>
    match updateRaceStep st e with
    | none => none
    | some st1 => updateRaceRun st1 es

/-- A schedule is a valid concurrent execution of the two update calls
when each thread performs lock, read, write, unlock, each exactly once,
in program order. -/
def updateSchedValid (sched : List UpdateStep) : Prop :=
  sched.filter (fun e => e == UpdateStep.lockA || e == UpdateStep.readA ||
      e == UpdateStep.writeA || e == UpdateStep.unlockA) =
    [UpdateStep.lockA, UpdateStep.readA, UpdateStep.writeA, UpdateStep.unlockA] ∧
  sched.filter (fun e => e == UpdateStep.lockB || e == UpdateStep.readB ||
      e == UpdateStep.writeB || e == UpdateStep.unlockB) =
    [UpdateStep.lockB, UpdateStep.readB, UpdateStep.writeB, UpdateStep.unlockB]

instance (sched : List UpdateStep) : Decidable (updateSchedValid sched) := by
  unfold updateSchedValid; exact instDecidableAnd

/-- The state of the allocator after `j` sequential allocations starting
from `NewReservoirState`. -/
def stateAfterAllocs : Nat → ReservoirState
  | 0 => NewReservoirState
  | j + 1 => (AtomicGetSessionIDAndIncrement (stateAfterAllocs j)).2

/-- The session id returned by allocation number `j` (zero-indexed:
`allocID 0` is the first allocation) in a sequential run starting from
`NewReservoirState`. -/
def allocID (j : Nat) : Nat :=
  (AtomicGetSessionIDAndIncrement (stateAfterAllocs j)).1

/-- A store operation, for reasoning about sequences of operations:
create with an initial reservoir, update with a value and the drawn
index, or end. -/
inductive Op where
  | create (init : List Int)
  | update (id : Nat) (v : Int) (r : Int)
  | endSession (id : Nat)

/-- Run one operation, keeping the state an operation returns (also on
its `NotFound` path); `none` on a panic. -/
def runOp (s : ReservoirState) : Op → Option ReservoirState
  | .create init => some (AtomicCreateReservoir s init).2
  | .update id v r =>
    match AtomicUpdateReservoir s id v r with
    | some u => some u.state
    | none => none
  | .endSession id =>
    match AtomicEndReservoirSession s id with
    | some e => some e.state
    | none => none

/-- Run a sequence of operations. -/
def run (s : ReservoirState) : List Op → Option ReservoirState
  | [] => some s
  | op :: ops =>
    match runOp s op with
    | none => none
    | some s1 => run s1 ops

/-- Number of create operations in a sequence. -/
def countCreates : List Op → Nat
  | [] => 0
  | Op.create _ :: ops => countCreates ops + 1
  | _ :: ops => countCreates ops

/-- The reservoir produced by one update with value `v` and drawn index
`r`: `n` incremented, and `data[r] = v` exactly when `r < k`. -/
def updatedReservoir (res : Reservoir) (v r : Int) : Reservoir :=
  if r < res.k then Reservoir.mk (res.data.set r.toNat v) res.k (res.n + 1)
  else Reservoir.mk res.data res.k (res.n + 1)

/-- A structurally sound reservoir: `data` has length `k`, and
`k ≤ n`. -/
def goodRes (res : Reservoir) : Prop :=
  (res.data.length : Int) = res.k ∧ res.k ≤ res.n

instance : DecidablePred goodRes := fun res => by
  unfold goodRes; infer_instance

/-- Well-formed store: the reservoir map and the lock map have the same
keys, and every stored reservoir is structurally sound. -/
def WF (s : ReservoirState) : Prop :=
  (∀ p ∈ s.sessionToReservoir,
    p.1 ∈ s.sessionToSessionLock ∧ goodRes p.2) ∧
  (∀ id ∈ s.sessionToSessionLock,
    (lookupRes s.sessionToReservoir id).isSome = true)

instance (s : ReservoirState) : Decidable (WF s) := by
  unfold WF; exact instDecidableAnd

/-- The key sets of the two maps coincide (the key-set part of `WF`). -/
def keysMatch (s : ReservoirState) : Prop :=
  (∀ p ∈ s.sessionToReservoir, p.1 ∈ s.sessionToSessionLock) ∧
  (∀ id ∈ s.sessionToSessionLock,
    (lookupRes s.sessionToReservoir id).isSome = true)

instance (s : ReservoirState) : Decidable (keysMatch s) := by
  unfold keysMatch; exact instDecidableAnd

/-- Allocator freshness: the counter is a `uint64` value and every
session id in the store is below it. -/
def Fresh (s : ReservoirState) : Prop :=
  s.nextSessionID < UINT64_CARD ∧
  ∀ id ∈ s.sessionToSessionLock, id < s.nextSessionID

instance (s : ReservoirState) : Decidable (Fresh s) := by
  unfold Fresh; exact instDecidableAnd

/-! Helper lemmas about the map model. -/

theorem lookupRes_cons_self (rest : List (Nat × Reservoir)) (sid : Nat)
    (res : Reservoir) : lookupRes ((sid, res) :: rest) sid = some res := by
  rw [lookupRes.eq_def]
  simp

theorem lookupRes_cons_ne (rest : List (Nat × Reservoir)) (a sid : Nat)
    (res : Reservoir) (ha : a ≠ sid) :
    lookupRes ((a, res) :: rest) sid = lookupRes rest sid := by
  rw [lookupRes.eq_def]
  simp [ha]

theorem eraseRes_cons_self (rest : List (Nat × Reservoir)) (sid : Nat)
    (res : Reservoir) : eraseRes ((sid, res) :: rest) sid = eraseRes rest sid := by
  rw [eraseRes.eq_def]
  simp

theorem eraseRes_cons_ne (rest : List (Nat × Reservoir)) (a sid : Nat)
    (res : Reservoir) (ha : a ≠ sid) :
    eraseRes ((a, res) :: rest) sid = (a, res) :: eraseRes rest sid := by
  rw [eraseRes.eq_def]
  simp [ha]

theorem eraseLock_cons_self (rest : List Nat) (sid : Nat) :
    eraseLock (sid :: rest) sid = eraseLock rest sid := by
  rw [eraseLock.eq_def]
  simp

theorem eraseLock_cons_ne (rest : List Nat) (a sid : Nat) (ha : a ≠ sid) :
    eraseLock (a :: rest) sid = a :: eraseLock rest sid := by
  rw [eraseLock.eq_def]
  simp [ha]

theorem lookup_eraseRes_ne (m : List (Nat × Reservoir)) (sid id : Nat)
    (h : id ≠ sid) : lookupRes (eraseRes m sid) id = lookupRes m id := by
  induction m with
  | nil => rfl
  | cons p rest ih =>
    obtain ⟨a, res⟩ := p
    by_cases ha : a = sid
    · subst ha
      rw [eraseRes_cons_self, ih, lookupRes_cons_ne rest a id res (fun hc => h hc.symm)]
    · by_cases hb : a = id
      · subst hb
        rw [eraseRes_cons_ne rest a sid res ha, lookupRes_cons_self,
          lookupRes_cons_self]
      · rw [eraseRes_cons_ne rest a sid res ha, lookupRes_cons_ne _ a id res hb,
          lookupRes_cons_ne _ a id res hb, ih]

theorem lookup_eraseRes_self (m : List (Nat × Reservoir)) (sid : Nat) :
    lookupRes (eraseRes m sid) sid = none := by
  induction m with
  | nil => rfl
  | cons p rest ih =>
    obtain ⟨a, res⟩ := p
    by_cases ha : a = sid
    · subst ha
      rw [eraseRes_cons_self, ih]
    · rw [eraseRes_cons_ne rest a sid res ha, lookupRes_cons_ne _ a sid res ha, ih]

theorem lookup_insertRes_self (m : List (Nat × Reservoir)) (sid : Nat)
    (res : Reservoir) : lookupRes (insertRes m sid res) sid = some res := by
  rw [insertRes, lookupRes_cons_self]

theorem lookup_insertRes_ne (m : List (Nat × Reservoir)) (sid id : Nat)
    (res : Reservoir) (h : id ≠ sid) :
    lookupRes (insertRes m sid res) id = lookupRes m id := by
  rw [insertRes, lookupRes_cons_ne _ sid id res (fun hc => h hc.symm),
    lookup_eraseRes_ne m sid id h]

theorem mem_eraseRes (m : List (Nat × Reservoir)) (sid : Nat)
    (p : Nat × Reservoir) : p ∈ eraseRes m sid ↔ p ∈ m ∧ p.1 ≠ sid := by
  induction m with
  | nil => simp [eraseRes]
  | cons q rest ih =>
    obtain ⟨a, res⟩ := q
    by_cases ha : a = sid
    · subst ha
      rw [eraseRes_cons_self, ih]
      simp only [List.mem_cons]
      constructor
      · rintro ⟨hm, hne⟩
        exact ⟨Or.inr hm, hne⟩
      · rintro ⟨hm | hm, hne⟩
        · exact absurd (congrArg Prod.fst hm) hne
        · exact ⟨hm, hne⟩
    · rw [eraseRes_cons_ne rest a sid res ha]
      simp only [List.mem_cons, ih]
      constructor
      · rintro (rfl | ⟨hm, hne⟩)
        · exact ⟨Or.inl rfl, ha⟩
        · exact ⟨Or.inr hm, hne⟩
      · rintro ⟨rfl | hm, hne⟩
        · exact Or.inl rfl
        · exact Or.inr ⟨hm, hne⟩

theorem mem_insertRes (m : List (Nat × Reservoir)) (sid : Nat)
    (res : Reservoir) (p : Nat × Reservoir) :
    p ∈ insertRes m sid res ↔ p = (sid, res) ∨ (p ∈ m ∧ p.1 ≠ sid) := by
  rw [insertRes]
  simp only [List.mem_cons, mem_eraseRes]

theorem mem_eraseLock (l : List Nat) (sid x : Nat) :
    x ∈ eraseLock l sid ↔ x ∈ l ∧ x ≠ sid := by
  induction l with
  | nil => simp [eraseLock]
  | cons a rest ih =>
    by_cases ha : a = sid
    · subst ha
      rw [eraseLock_cons_self, ih]
      simp only [List.mem_cons]
      constructor
      · rintro ⟨hm, hne⟩
        exact ⟨Or.inr hm, hne⟩
      · rintro ⟨rfl | hm, hne⟩
        · exact absurd rfl hne
        · exact ⟨hm, hne⟩
    · rw [eraseLock_cons_ne rest a sid ha]
      simp only [List.mem_cons, ih]
      constructor
      · rintro (rfl | ⟨hm, hne⟩)
        · exact ⟨Or.inl rfl, ha⟩
        · exact ⟨Or.inr hm, hne⟩
      · rintro ⟨rfl | hm, hne⟩
        · exact Or.inl rfl
        · exact Or.inr ⟨hm, hne⟩

theorem mem_insertLock (l : List Nat) (sid x : Nat) :
    x ∈ insertLock l sid ↔ x = sid ∨ x ∈ l := by
  unfold insertLock
  by_cases h : sid ∈ l
  · rw [if_pos h]
    constructor
    · exact Or.inr
    · rintro (rfl | hx)
      · exact h
      · exact hx
  · rw [if_neg h]
    simp [List.mem_cons]

theorem lookup_some_mem (m : List (Nat × Reservoir)) (id : Nat)
    (res : Reservoir) (h : lookupRes m id = some res) : (id, res) ∈ m := by
  induction m with
  | nil => simp [lookupRes] at h
  | cons p rest ih =>
    obtain ⟨a, b⟩ := p
    by_cases ha : a = id
    · subst ha
      rw [lookupRes_cons_self] at h
      cases h
      exact List.mem_cons_self _ _
    · rw [lookupRes_cons_ne rest a id b ha] at h
      exact List.mem_cons_of_mem _ (ih h)

theorem goodRes_of_lookup (s : ReservoirState) (hWF : WF s) (id : Nat)
    (res : Reservoir) (h : lookupRes s.sessionToReservoir id = some res) :
    goodRes res :=
  (hWF.1 (id, res) (lookup_some_mem _ _ _ h)).2

theorem mem_lock_of_lookup (s : ReservoirState) (hWF : WF s) (id : Nat)
    (res : Reservoir) (h : lookupRes s.sessionToReservoir id = some res) :
    id ∈ s.sessionToSessionLock :=
  (hWF.1 (id, res) (lookup_some_mem _ _ _ h)).1

theorem lookup_of_mem_lock (s : ReservoirState) (hWF : WF s) (id : Nat)
    (h : id ∈ s.sessionToSessionLock) :
    ∃ res, lookupRes s.sessionToReservoir id = some res := by
  have := hWF.2 id h
  exact Option.isSome_iff_exists.mp this

theorem goodRes_k_nonneg (res : Reservoir) (h : goodRes res) : 0 ≤ res.k :=
  h.1 ▸ Int.natCast_nonneg _

theorem goodRes_n_nonneg (res : Reservoir) (h : goodRes res) : 0 ≤ res.n :=
  le_trans (goodRes_k_nonneg res h) h.2

theorem goodRes_updated (res : Reservoir) (v r : Int) (h : goodRes res) :
    goodRes (updatedReservoir res v r) := by
  unfold updatedReservoir
  have h2 : res.k ≤ res.n + 1 := by
    have := h.2
    omega
  by_cases hrk : r < res.k
  · rw [if_pos hrk]
    exact ⟨by simpa [List.length_set] using h.1, h2⟩
  · rw [if_neg hrk]
    exact ⟨h.1, h2⟩

/-! Equational characterization of the store operations. -/

theorem update_eq_notFound (s : ReservoirState) (id : Nat) (v r : Int)
    (h : id ∉ s.sessionToSessionLock) :
    AtomicUpdateReservoir s id v r =
      some (UpdateResult.notFound
        ("Session ID " ++ toString id ++ " not found.") s) := by
  unfold AtomicUpdateReservoir
  rw [if_neg h]

theorem update_eq_ok (s : ReservoirState) (id : Nat) (v r : Int)
    (res : Reservoir) (hlock : id ∈ s.sessionToSessionLock)
    (hres : lookupRes s.sessionToReservoir id = some res)
    (hgood : goodRes res) (hr0 : 0 ≤ r) :
    AtomicUpdateReservoir s id v r =
      some (UpdateResult.ok
        { s with sessionToReservoir :=
            insertRes s.sessionToReservoir id (updatedReservoir res v r) }) := by
  have hn1 : ¬ (res.n + 1 ≤ 0) := by
    have := goodRes_n_nonneg res hgood
    omega
  unfold AtomicUpdateReservoir
  rw [if_pos hlock, hres]
  simp only [hn1, if_false]
  by_cases hrk : r < res.k
  · have hset : setInt res.data r v = some (res.data.set r.toNat v) := by
      unfold setInt
      rw [if_pos ⟨hr0, by rw [hgood.1]; exact hrk⟩]
    rw [if_pos hrk, hset]
    simp [updatedReservoir, hrk]
  · rw [if_neg hrk]
    simp [updatedReservoir, hrk]

theorem update_eq_none_of_neg (s : ReservoirState) (id : Nat) (v r : Int)
    (res : Reservoir) (hlock : id ∈ s.sessionToSessionLock)
    (hres : lookupRes s.sessionToReservoir id = some res)
    (hgood : goodRes res) (hr : r < 0) :
    AtomicUpdateReservoir s id v r = none := by
  have hn1 : ¬ (res.n + 1 ≤ 0) := by
    have := goodRes_n_nonneg res hgood
    omega
  have hrk : r < res.k := lt_of_lt_of_le hr (goodRes_k_nonneg res hgood)
  have hset : setInt res.data r v = none := by
    unfold setInt
    rw [if_neg (by omega)]
  unfold AtomicUpdateReservoir
  rw [if_pos hlock, hres]
  simp only [hn1, if_false]
  rw [if_pos hrk, hset]

theorem end_eq_notFound (s : ReservoirState) (id : Nat)
    (h : id ∉ s.sessionToSessionLock) :
    AtomicEndReservoirSession s id =
      some (EndResult.notFound
        ("Session ID " ++ toString id ++ " not found.") s) := by
  unfold AtomicEndReservoirSession
  rw [if_neg h]

theorem end_eq_ok (s : ReservoirState) (id : Nat) (res : Reservoir)
    (hlock : id ∈ s.sessionToSessionLock)
    (hres : lookupRes s.sessionToReservoir id = some res) :
    AtomicEndReservoirSession s id =
      some (EndResult.ok res.data
        { s with
          sessionToReservoir := eraseRes s.sessionToReservoir id
          sessionToSessionLock := eraseLock s.sessionToSessionLock id }) := by
  unfold AtomicEndReservoirSession
  rw [if_pos hlock, hres]

theorem create_fst (s : ReservoirState) (init : List Int) :
    (AtomicCreateReservoir s init).1 = s.nextSessionID := rfl

theorem create_snd (s : ReservoirState) (init : List Int) :
    (AtomicCreateReservoir s init).2 =
      { sessionToReservoir :=
          insertRes s.sessionToReservoir s.nextSessionID
            (Reservoir.mk init (init.length : Int) (init.length : Int))
        sessionToSessionLock := insertLock s.sessionToSessionLock s.nextSessionID
        nextSessionID := (s.nextSessionID + 1) % UINT64_CARD } := rfl

/-! Preservation of well-formedness. -/

theorem wf_create (s : ReservoirState) (init : List Int) (hWF : WF s) :
    WF (AtomicCreateReservoir s init).2 := by
  rw [create_snd]
  constructor
  · intro p hp
    rw [mem_insertRes] at hp
    rcases hp with rfl | ⟨hm, hne⟩
    · exact ⟨(mem_insertLock _ _ _).mpr (Or.inl rfl), rfl, le_refl _⟩
    · have h := hWF.1 p hm
      exact ⟨(mem_insertLock _ _ _).mpr (Or.inr h.1), h.2⟩
  · intro id hid
    rw [mem_insertLock] at hid
    rcases hid with rfl | hid
    · rw [lookup_insertRes_self]
      rfl
    · by_cases he : id = s.nextSessionID
      · subst he
        rw [lookup_insertRes_self]
        rfl
      · rw [lookup_insertRes_ne _ _ _ _ he]
        exact hWF.2 id hid

theorem wf_insert_updated (s : ReservoirState) (id : Nat) (res : Reservoir)
    (v r : Int) (hWF : WF s)
    (hres : lookupRes s.sessionToReservoir id = some res) :
    WF { s with sessionToReservoir :=
        insertRes s.sessionToReservoir id (updatedReservoir res v r) } := by
  have hlock : id ∈ s.sessionToSessionLock := mem_lock_of_lookup s hWF id res hres
  have hgood : goodRes res := goodRes_of_lookup s hWF id res hres
  constructor
  · intro p hp
    rw [mem_insertRes] at hp
    rcases hp with rfl | ⟨hm, hne⟩
    · exact ⟨hlock, goodRes_updated res v r hgood⟩
    · exact hWF.1 p hm
  · intro id2 hid2
    by_cases he : id2 = id
    · subst he
      rw [lookup_insertRes_self]
      rfl
    · rw [lookup_insertRes_ne _ _ _ _ he]
      exact hWF.2 id2 hid2

theorem wf_erase (s : ReservoirState) (id : Nat) (hWF : WF s) :
    WF { s with
        sessionToReservoir := eraseRes s.sessionToReservoir id
        sessionToSessionLock := eraseLock s.sessionToSessionLock id } := by
  constructor
  · intro p hp
    rw [mem_eraseRes] at hp
    have h := hWF.1 p hp.1
    exact ⟨(mem_eraseLock _ _ _).mpr ⟨h.1, hp.2⟩, h.2⟩
  · intro id2 hid2
    rw [mem_eraseLock] at hid2
    rw [lookup_eraseRes_ne _ _ _ hid2.2]
    exact hWF.2 id2 hid2.1

/-- Under well-formedness, every result of `AtomicUpdateReservoir` is
either the `NotFound` error (identifier absent, state unchanged) or a
success producing `updatedReservoir`. -/
theorem update_result_cases (s : ReservoirState) (id : Nat) (v r : Int)
    (u : UpdateResult) (hWF : WF s)
    (h : AtomicUpdateReservoir s id v r = some u) :
    (id ∉ s.sessionToSessionLock ∧
      u = UpdateResult.notFound
        ("Session ID " ++ toString id ++ " not found.") s) ∨
    (id ∈ s.sessionToSessionLock ∧ 0 ≤ r ∧
      ∃ res, lookupRes s.sessionToReservoir id = some res ∧
        u = UpdateResult.ok
          { s with sessionToReservoir :=
              insertRes s.sessionToReservoir id (updatedReservoir res v r) }) := by
  by_cases hlock : id ∈ s.sessionToSessionLock
  · obtain ⟨res, hres⟩ := lookup_of_mem_lock s hWF id hlock
    have hgood := goodRes_of_lookup s hWF id res hres
    by_cases hr0 : 0 ≤ r
    · right
      refine ⟨hlock, hr0, res, hres, ?_⟩
      rw [update_eq_ok s id v r res hlock hres hgood hr0] at h
      exact (Option.some.injEq _ _ ▸ h).symm
    · rw [update_eq_none_of_neg s id v r res hlock hres hgood (by omega)] at h
      cases h
  · left
    refine ⟨hlock, ?_⟩
    rw [update_eq_notFound s id v r hlock] at h
    exact (Option.some.injEq _ _ ▸ h).symm

/-- Under well-formedness, every result of `AtomicEndReservoirSession`
is either the `NotFound` error (identifier absent, state unchanged) or
a success returning the data and erasing the session from both maps. -/
theorem end_result_cases (s : ReservoirState) (id : Nat) (e : EndResult)
    (hWF : WF s) (h : AtomicEndReservoirSession s id = some e) :
    (id ∉ s.sessionToSessionLock ∧
      e = EndResult.notFound
        ("Session ID " ++ toString id ++ " not found.") s) ∨
    (id ∈ s.sessionToSessionLock ∧
      ∃ res, lookupRes s.sessionToReservoir id = some res ∧
        e = EndResult.ok res.data
          { s with
            sessionToReservoir := eraseRes s.sessionToReservoir id
            sessionToSessionLock := eraseLock s.sessionToSessionLock id }) := by
  by_cases hlock : id ∈ s.sessionToSessionLock
  · obtain ⟨res, hres⟩ := lookup_of_mem_lock s hWF id hlock
    right
    refine ⟨hlock, res, hres, ?_⟩
    rw [end_eq_ok s id res hlock hres] at h
    exact (Option.some.injEq _ _ ▸ h).symm
  · left
    refine ⟨hlock, ?_⟩
    rw [end_eq_notFound s id hlock] at h
    exact (Option.some.injEq _ _ ▸ h).symm

theorem wf_runOp (s : ReservoirState) (op : Op) (s1 : ReservoirState)
    (hWF : WF s) (h : runOp s op = some s1) : WF s1 := by
  cases op with
  | create init =>
    simp only [runOp, Option.some.injEq] at h
    rw [← h]
    exact wf_create s init hWF
  | update id v r =>
    simp only [runOp] at h
    cases hu : AtomicUpdateReservoir s id v r with
    | none => rw [hu] at h; cases h
    | some u =>
      rw [hu] at h
      simp only [Option.some.injEq] at h
      rcases update_result_cases s id v r u hWF hu with ⟨_, rfl⟩ | ⟨_, _, res, hres, rfl⟩
      · rw [← h]
        exact hWF
      · rw [← h]
        exact wf_insert_updated s id res v r hWF hres
  | endSession id =>
    simp only [runOp] at h
    cases hu : AtomicEndReservoirSession s id with
    | none => rw [hu] at h; cases h
    | some e =>
      rw [hu] at h
      simp only [Option.some.injEq] at h
      rcases end_result_cases s id e hWF hu with ⟨_, rfl⟩ | ⟨_, res, hres, rfl⟩
      · rw [← h]
        exact hWF
      · rw [← h]
        exact wf_erase s id hWF

theorem wf_run (ops : List Op) (s s2 : ReservoirState) (hWF : WF s)
    (h : run s ops = some s2) : WF s2 := by
  induction ops generalizing s with
  | nil =>
    simp only [run, Option.some.injEq] at h
    rw [← h]
    exact hWF
  | cons op ops ih =>
    simp only [run] at h
    cases h1 : runOp s op with
    | none => rw [h1] at h; cases h
    | some s1 =>
      rw [h1] at h
      exact ih s1 (wf_runOp s op s1 hWF h1) h

/-! Allocator arithmetic. -/

theorem UINT64_CARD_pos : 1 < UINT64_CARD := by
  unfold UINT64_CARD
  norm_num

theorem stateAfterAllocs_next (j : Nat) :
    (stateAfterAllocs j).nextSessionID = (1 + j) % UINT64_CARD := by
  induction j with
  | zero =>
    show (1 : Nat) = (1 + 0) % UINT64_CARD
    rw [Nat.add_zero, Nat.mod_eq_of_lt UINT64_CARD_pos]
  | succ j ih =>
    show ((stateAfterAllocs j).nextSessionID + 1) % UINT64_CARD = _
    rw [ih, Nat.mod_add_mod]
    congr 1

theorem allocID_eq (j : Nat) : allocID j = (1 + j) % UINT64_CARD :=
  stateAfterAllocs_next j

theorem updatedReservoir_k (res : Reservoir) (v r : Int) :
    (updatedReservoir res v r).k = res.k := by
  unfold updatedReservoir
  by_cases hrk : r < res.k <;> simp [hrk]

theorem updatedReservoir_n (res : Reservoir) (v r : Int) :
    (updatedReservoir res v r).n = res.n + 1 := by
  unfold updatedReservoir
  by_cases hrk : r < res.k <;> simp [hrk]

theorem updatedReservoir_len (res : Reservoir) (v r : Int) :
    (updatedReservoir res v r).data.length = res.data.length := by
  unfold updatedReservoir
  by_cases hrk : r < res.k <;> simp [hrk, List.length_set]

theorem wf_keysMatch (s : ReservoirState) (hWF : WF s) : keysMatch s :=
  ⟨fun p hp => (hWF.1 p hp).1, hWF.2⟩

/-- A concrete store with one session, used to instantiate hypotheses:
session 1 holds data `[10, 20, 30]` with `k = n = 3`; the next
identifier is 2. -/
def exState : ReservoirState :=
  ReservoirState.mk [(1, Reservoir.mk [10, 20, 30] 3 3)] [1] 2

/-- A concrete store whose only session was begun with the empty
initial sequence: `k = n = 0`, `data = []`. -/
def exState0 : ReservoirState :=
  ReservoirState.mk [(1, Reservoir.mk [] 0 0)] [1] 2

/-- C1: for every session present in the store, `UpdateSession`
increments the session counter `n` by exactly one, and with the drawn
index `r` in `[0, n)` for the post-increment `n`, writes
`data[r] = value` exactly when `r < k`, leaves `data` unchanged when
`r ≥ k`, modifies no other field of the reservoir, and leaves every
other session, the lock map and the id counter untouched. -/
theorem C1_update_session (s : ReservoirState) (hWF : WF s) (id : Nat)
    (res : Reservoir) (hres : lookupRes s.sessionToReservoir id = some res)
    (v r : Int) (hr0 : 0 ≤ r) (hrn : r < res.n + 1) :
    ∃ s1, AtomicUpdateReservoir s id v r = some (UpdateResult.ok s1) ∧
      lookupRes s1.sessionToReservoir id =
        some (if r < res.k
          then Reservoir.mk (res.data.set r.toNat v) res.k (res.n + 1)
          else Reservoir.mk res.data res.k (res.n + 1)) ∧
      (∀ id2, id2 ≠ id →
        lookupRes s1.sessionToReservoir id2 =
          lookupRes s.sessionToReservoir id2) ∧
      s1.sessionToSessionLock = s.sessionToSessionLock ∧
      s1.nextSessionID = s.nextSessionID := by
  have hlock := mem_lock_of_lookup s hWF id res hres
  have hgood := goodRes_of_lookup s hWF id res hres
  refine ⟨_, update_eq_ok s id v r res hlock hres hgood hr0, ?_, ?_, rfl, rfl⟩
  · rw [lookup_insertRes_self]
    unfold updatedReservoir
    by_cases hrk : r < res.k <;> simp [hrk]
  · intro id2 hne
    exact lookup_insertRes_ne _ _ _ _ hne

/-- Witness for C1 at a concrete input: session 1 of `exState`, value
99, drawn index 1. -/
theorem C1_witness :
    WF exState ∧
    lookupRes exState.sessionToReservoir 1 = some (Reservoir.mk [10, 20, 30] 3 3) ∧
    (0 : Int) ≤ 1 ∧ (1 : Int) < (Reservoir.mk [10, 20, 30] 3 3).n + 1 ∧
    ∃ s1, AtomicUpdateReservoir exState 1 99 1 = some (UpdateResult.ok s1) ∧
      lookupRes s1.sessionToReservoir 1 =
        some (if (1 : Int) < (Reservoir.mk [10, 20, 30] 3 3).k
          then Reservoir.mk ((Reservoir.mk [10, 20, 30] 3 3).data.set (1 : Int).toNat 99)
            (Reservoir.mk [10, 20, 30] 3 3).k ((Reservoir.mk [10, 20, 30] 3 3).n + 1)
          else Reservoir.mk (Reservoir.mk [10, 20, 30] 3 3).data
            (Reservoir.mk [10, 20, 30] 3 3).k ((Reservoir.mk [10, 20, 30] 3 3).n + 1)) ∧
      (∀ id2, id2 ≠ 1 →
        lookupRes s1.sessionToReservoir id2 =
          lookupRes exState.sessionToReservoir id2) ∧
      s1.sessionToSessionLock = exState.sessionToSessionLock ∧
      s1.nextSessionID = exState.nextSessionID :=
  ⟨by decide, by decide, by decide, by decide,
    C1_update_session exState (by decide) 1 (Reservoir.mk [10, 20, 30] 3 3)
      (by decide) 99 1 (by decide) (by decide)⟩

/-- C9: after every completed create, update or end operation, the
reservoir map and the per-session lock map have identical key sets. -/
theorem C9_key_sets_match (s : ReservoirState) (hWF : WF s) :
    (∀ init, keysMatch (AtomicCreateReservoir s init).2) ∧
    (∀ id v r u, AtomicUpdateReservoir s id v r = some u →
      keysMatch u.state) ∧
    (∀ id e, AtomicEndReservoirSession s id = some e →
      keysMatch e.state) := by
  refine ⟨?_, ?_, ?_⟩
  · intro init
    exact wf_keysMatch _ (wf_create s init hWF)
  · intro id v r u hu
    rcases update_result_cases s id v r u hWF hu with ⟨_, rfl⟩ |
      ⟨_, _, res, hres, rfl⟩
    · exact wf_keysMatch _ hWF
    · exact wf_keysMatch _ (wf_insert_updated s id res v r hWF hres)
  · intro id e he
    rcases end_result_cases s id e hWF he with ⟨_, rfl⟩ | ⟨_, res, hres, rfl⟩
    · exact wf_keysMatch _ hWF
    · exact wf_keysMatch _ (wf_erase s id hWF)

/-- Witness for C9 at the concrete store `exState`. -/
theorem C9_witness :
    WF exState ∧
    ((∀ init, keysMatch (AtomicCreateReservoir exState init).2) ∧
    (∀ id v r u, AtomicUpdateReservoir exState id v r = some u →
      keysMatch u.state) ∧
    (∀ id e, AtomicEndReservoirSession exState id = some e →
      keysMatch e.state)) :=
  ⟨by decide, C9_key_sets_match exState (by decide)⟩

/-- C10: for every existing session, the update is total: the argument
of `rand.Intn` (the post-increment `n`) is at least 1, any overwrite
index `r < k` is a valid index into `data`, and the operation never
panics (never returns `none`), including for sessions with `k = 0`. -/
theorem C10_update_total (s : ReservoirState) (hWF : WF s) (id : Nat)
    (hid : id ∈ s.sessionToSessionLock) (v r : Int) (hr0 : 0 ≤ r) :
    AtomicUpdateReservoir s id v r ≠ none ∧
    ∃ res, lookupRes s.sessionToReservoir id = some res ∧
      1 ≤ res.n + 1 ∧
      (r < res.k → 0 ≤ r ∧ r < (res.data.length : Int)) := by
  obtain ⟨res, hres⟩ := lookup_of_mem_lock s hWF id hid
  have hgood := goodRes_of_lookup s hWF id res hres
  refine ⟨?_, res, hres, ?_, ?_⟩
  · rw [update_eq_ok s id v r res hid hres hgood hr0]
    exact Option.some_ne_none _
  · have := goodRes_n_nonneg res hgood
    omega
  · intro hrk
    exact ⟨hr0, by rw [hgood.1]; exact hrk⟩

/-- Witness for C10 at a concrete input: session 1 of the store
`exState0` begun with the empty sequence, drawn index 0. -/
theorem C10_witness :
    WF exState0 ∧ 1 ∈ exState0.sessionToSessionLock ∧ (0 : Int) ≤ 0 ∧
    (AtomicUpdateReservoir exState0 1 7 0 ≠ none ∧
    ∃ res, lookupRes exState0.sessionToReservoir 1 = some res ∧
      1 ≤ res.n + 1 ∧
      ((0 : Int) < res.k → (0 : Int) ≤ 0 ∧ (0 : Int) < (res.data.length : Int))) :=
  ⟨by decide, by decide, by decide,
    C10_update_total exState0 (by decide) 1 (by decide) 7 0 (by decide)⟩

/-- C3: `len(data) = k` and `n ≥ k` hold from the moment
`CreateSession` builds the reservoir (with `k = n = len(initial)`), the
length of `data` and the value of `k` are unchanged by every update
while `n` never decreases, and the invariant holds in every state
reachable by any sequence of operations. -/
theorem C3_invariants (s : ReservoirState) (hWF : WF s) :
    (∀ init : List Int,
      lookupRes (AtomicCreateReservoir s init).2.sessionToReservoir
          (AtomicCreateReservoir s init).1 =
        some (Reservoir.mk init (init.length : Int) (init.length : Int))) ∧
    (∀ id v r s1, AtomicUpdateReservoir s id v r = some (UpdateResult.ok s1) →
      ∀ id2 res2, lookupRes s1.sessionToReservoir id2 = some res2 →
        (res2.data.length : Int) = res2.k ∧ res2.k ≤ res2.n ∧
        ∃ res0, lookupRes s.sessionToReservoir id2 = some res0 ∧
          res2.k = res0.k ∧ res2.data.length = res0.data.length ∧
          res0.n ≤ res2.n) ∧
    (∀ ops s2, run s ops = some s2 →
      ∀ id res, lookupRes s2.sessionToReservoir id = some res →
        (res.data.length : Int) = res.k ∧ res.k ≤ res.n) := by
  refine ⟨?_, ?_, ?_⟩
  · intro init
    rw [create_fst, create_snd, lookup_insertRes_self]
  · intro id v r s1 h id2 res2 hres2
    rcases update_result_cases s id v r (UpdateResult.ok s1) hWF h with
      ⟨_, heq⟩ | ⟨_, _, res, hres, heq⟩
    · cases heq
    · injection heq with h2
      subst h2
      simp only [ReservoirState.sessionToReservoir] at hres2
      have hgood := goodRes_of_lookup s hWF id res hres
      by_cases he : id2 = id
      · subst he
        rw [lookup_insertRes_self] at hres2
        cases hres2
        have hg2 := goodRes_updated res v r hgood
        refine ⟨hg2.1, hg2.2, res, hres, updatedReservoir_k res v r,
          updatedReservoir_len res v r, ?_⟩
        rw [updatedReservoir_n]
        omega
      · rw [lookup_insertRes_ne _ _ _ _ he] at hres2
        have hg2 := goodRes_of_lookup s hWF id2 res2 hres2
        exact ⟨hg2.1, hg2.2, res2, hres2, rfl, rfl, le_refl _⟩
  · intro ops s2 h id res hres
    have hg := goodRes_of_lookup s2 (wf_run ops s s2 hWF h) id res hres
    exact ⟨hg.1, hg.2⟩

/-- Witness for C3 at the concrete store `exState`. -/
theorem C3_witness :
    WF exState ∧
    ((∀ init : List Int,
      lookupRes (AtomicCreateReservoir exState init).2.sessionToReservoir
          (AtomicCreateReservoir exState init).1 =
        some (Reservoir.mk init (init.length : Int) (init.length : Int))) ∧
    (∀ id v r s1,
      AtomicUpdateReservoir exState id v r = some (UpdateResult.ok s1) →
      ∀ id2 res2, lookupRes s1.sessionToReservoir id2 = some res2 →
        (res2.data.length : Int) = res2.k ∧ res2.k ≤ res2.n ∧
        ∃ res0, lookupRes exState.sessionToReservoir id2 = some res0 ∧
          res2.k = res0.k ∧ res2.data.length = res0.data.length ∧
          res0.n ≤ res2.n) ∧
    (∀ ops s2, run exState ops = some s2 →
      ∀ id res, lookupRes s2.sessionToReservoir id = some res →
        (res.data.length : Int) = res.k ∧ res.k ≤ res.n)) :=
  ⟨by decide, C3_invariants exState (by decide)⟩

/-- C6: the Begin operation has no failure mode: for every request,
including one whose initial sequence is empty and one whose JSON
decoding failed, the job is processed, a session is created with
`k = n = len(initial)` under the freshly allocated identifier, and that
identifier is written back to the caller. -/
theorem C6_begin_total (parseOk : Bool) (reservoir : List Int)
    (s : ReservoirState) :
    HttpWrite.body (beginHandler parseOk reservoir s).2.1 ∈
      (beginHandler parseOk reservoir s).1 ∧
    lookupRes (beginHandler parseOk reservoir s).2.2.sessionToReservoir
        (beginHandler parseOk reservoir s).2.1 =
      some (Reservoir.mk reservoir (reservoir.length : Int)
        (reservoir.length : Int)) ∧
    (beginHandler parseOk reservoir s).2.1 = s.nextSessionID := by
  refine ⟨?_, ?_, rfl⟩
  · simp [beginHandler, processBeginSession, BeginSession]
  · show lookupRes (AtomicCreateReservoir s reservoir).2.sessionToReservoir
        (AtomicCreateReservoir s reservoir).1 = _
    rw [create_fst, create_snd, lookup_insertRes_self]

/-- C8: sequentially, the allocator returns the pre-increment value of
the shared counter starting at 1: the first allocation returns 1, and
as long as the counter has not exhausted the `uint64` range, every
later allocation returns a strictly greater identifier. -/
theorem C8_allocator_sequential (i j : Nat) (hij : i < j)
    (hj : j < UINT64_CARD - 1) :
    allocID 0 = 1 ∧
    (∀ s : ReservoirState, AtomicGetSessionIDAndIncrement s =
      (s.nextSessionID,
        { s with nextSessionID := (s.nextSessionID + 1) % UINT64_CARD })) ∧
    allocID i < allocID j := by
  have hM : UINT64_CARD = 18446744073709551616 := by norm_num [UINT64_CARD]
  refine ⟨?_, fun s => rfl, ?_⟩
  · rw [allocID_eq, Nat.mod_eq_of_lt]
    omega
  · rw [allocID_eq, allocID_eq, Nat.mod_eq_of_lt (by omega),
      Nat.mod_eq_of_lt (by omega)]
    omega

/-- Witness for C8 at concrete allocation indices 0 and 5. -/
theorem C8_witness :
    0 < 5 ∧ 5 < UINT64_CARD - 1 ∧
    (allocID 0 = 1 ∧
    (∀ s : ReservoirState, AtomicGetSessionIDAndIncrement s =
      (s.nextSessionID,
        { s with nextSessionID := (s.nextSessionID + 1) % UINT64_CARD })) ∧
    allocID 0 < allocID 5) :=
  ⟨by decide, by norm_num [UINT64_CARD], C8_allocator_sequential 0 5 (by decide)
    (by norm_num [UINT64_CARD])⟩

theorem empty_updates_aux (id : Nat) (ps : List (Int × Int)) :
    ∀ (s : ReservoirState) (n0 : Int), WF s →
      lookupRes s.sessionToReservoir id = some (Reservoir.mk [] 0 n0) →
      (∀ p ∈ ps, 0 ≤ p.2) →
      ∃ s1, run s (ps.map (fun p => Op.update id p.1 p.2)) = some s1 ∧
        WF s1 ∧
        lookupRes s1.sessionToReservoir id =
          some (Reservoir.mk [] 0 (n0 + (ps.length : Int))) := by
  induction ps with
  | nil =>
    intro s n0 hWF hres _
    refine ⟨s, rfl, hWF, ?_⟩
    simpa using hres
  | cons p ps ih =>
    intro s n0 hWF hres hpos
    have hlock := mem_lock_of_lookup s hWF id _ hres
    have hgood := goodRes_of_lookup s hWF id _ hres
    have hr0 : 0 ≤ p.2 := hpos p (List.mem_cons_self _ _)
    have hstep := update_eq_ok s id p.1 p.2 _ hlock hres hgood hr0
    have hupd : updatedReservoir (Reservoir.mk [] 0 n0) p.1 p.2 =
        Reservoir.mk [] 0 (n0 + 1) := by
      unfold updatedReservoir
      rw [if_neg (by simp; omega)]
    rw [hupd] at hstep
    have hWF1 := wf_insert_updated s id _ p.1 p.2 hWF hres
    rw [hupd] at hWF1
    obtain ⟨s1, hrun, hWF2, hlook⟩ := ih
      { s with sessionToReservoir :=
          insertRes s.sessionToReservoir id (Reservoir.mk [] 0 (n0 + 1)) }
      (n0 + 1) hWF1 (lookup_insertRes_self _ _ _)
      (fun q hq => hpos q (List.mem_cons_of_mem _ hq))
    refine ⟨s1, ?_, hWF2, ?_⟩
    · simp only [List.map_cons, run, runOp, hstep, UpdateResult.state]
      exact hrun
    · have harith : n0 + 1 + (ps.length : Int) =
          n0 + (((p :: ps).length : Nat) : Int) := by
        push_cast [List.length_cons]
        ring
      rw [hlook, harith]

/-- C7: for a session begun with the empty initial sequence (`k = 0`),
its `data` is the empty sequence, every sequence of subsequent update
calls succeeds while leaving `data` empty and incrementing `n` once per
call, and ending the session afterwards returns the empty sequence. -/
theorem C7_empty_session (s : ReservoirState) (hWF : WF s) (id : Nat)
    (res : Reservoir) (hres : lookupRes s.sessionToReservoir id = some res)
    (hk : res.k = 0) :
    res.data = [] ∧
    ∀ ps : List (Int × Int), (∀ p ∈ ps, 0 ≤ p.2) →
      ∃ s1, run s (ps.map (fun p => Op.update id p.1 p.2)) = some s1 ∧
        lookupRes s1.sessionToReservoir id =
          some (Reservoir.mk [] 0 (res.n + (ps.length : Int))) ∧
        ∃ s2, AtomicEndReservoirSession s1 id =
          some (EndResult.ok [] s2) := by
  have hgood := goodRes_of_lookup s hWF id res hres
  have hdata : res.data = [] := by
    have hlen : res.data.length = 0 := by
      have := hgood.1
      rw [hk] at this
      exact_mod_cast this
    exact List.length_eq_zero.mp hlen
  have hres2 : res = Reservoir.mk [] 0 res.n := by
    cases res
    simp only [Reservoir.mk.injEq]
    exact ⟨hdata, hk, trivial⟩
  refine ⟨hdata, fun ps hpos => ?_⟩
  rw [hres2] at hres
  obtain ⟨s1, hrun, hWF1, hlook⟩ :=
    empty_updates_aux id ps s res.n hWF hres hpos
  refine ⟨s1, hrun, hlook, ?_⟩
  have hlock1 := mem_lock_of_lookup s1 hWF1 id _ hlook
  exact ⟨_, end_eq_ok s1 id _ hlock1 hlook⟩

/-- Witness for C7 at the concrete store `exState0` (session 1 begun
with the empty sequence). -/
theorem C7_witness :
    WF exState0 ∧
    lookupRes exState0.sessionToReservoir 1 = some (Reservoir.mk [] 0 0) ∧
    (Reservoir.mk [] 0 0).k = 0 ∧
    ((Reservoir.mk ([] : List Int) 0 0).data = [] ∧
    ∀ ps : List (Int × Int), (∀ p ∈ ps, 0 ≤ p.2) →
      ∃ s1, run exState0 (ps.map (fun p => Op.update 1 p.1 p.2)) = some s1 ∧
        lookupRes s1.sessionToReservoir 1 =
          some (Reservoir.mk [] 0 ((Reservoir.mk ([] : List Int) 0 0).n +
            (ps.length : Int))) ∧
        ∃ s2, AtomicEndReservoirSession s1 1 =
          some (EndResult.ok [] s2)) :=
  ⟨by decide, by decide, by decide,
    C7_empty_session exState0 (by decide) 1 (Reservoir.mk [] 0 0)
      (by decide) (by decide)⟩

theorem not_reused_aux (id : Nat) (ops : List Op) :
    ∀ (s : ReservoirState), WF s →
      id ∉ s.sessionToSessionLock →
      lookupRes s.sessionToReservoir id = none →
      id < s.nextSessionID →
      s.nextSessionID + countCreates ops < UINT64_CARD →
      ∀ s2, run s ops = some s2 →
        id ∉ s2.sessionToSessionLock ∧
        lookupRes s2.sessionToReservoir id = none ∧
        id < s2.nextSessionID := by
  induction ops with
  | nil =>
    intro s _ hlock hres hlt _ s2 h
    simp only [run, Option.some.injEq] at h
    rw [← h]
    exact ⟨hlock, hres, hlt⟩
  | cons op ops ih =>
    intro s hWF hlock hres hlt hbound s2 h
    simp only [run] at h
    cases h1 : runOp s op with
    | none => rw [h1] at h; cases h
    | some s1 =>
      rw [h1] at h
      have hWF1 := wf_runOp s op s1 hWF h1
      have hnext : id ∉ s1.sessionToSessionLock ∧
          lookupRes s1.sessionToReservoir id = none ∧
          id < s1.nextSessionID ∧
          s1.nextSessionID + countCreates ops < UINT64_CARD := by
        cases op with
        | create init =>
          simp only [runOp, Option.some.injEq] at h1
          have hwrap : (s.nextSessionID + 1) % UINT64_CARD =
              s.nextSessionID + 1 := by
            apply Nat.mod_eq_of_lt
            have : countCreates (Op.create init :: ops) =
                countCreates ops + 1 := rfl
            omega
          rw [← h1, create_snd]
          have hne : id ≠ s.nextSessionID := by omega
          refine ⟨?_, ?_, ?_, ?_⟩
          · intro hmem
            rcases (mem_insertLock _ _ _).mp hmem with heq | hmem2
            · exact hne heq
            · exact hlock hmem2
          · rw [lookup_insertRes_ne _ _ _ _ hne]
            exact hres
          · show id < (s.nextSessionID + 1) % UINT64_CARD
            rw [hwrap]
            omega
          · show (s.nextSessionID + 1) % UINT64_CARD + countCreates ops <
              UINT64_CARD
            rw [hwrap]
            have : countCreates (Op.create init :: ops) =
                countCreates ops + 1 := rfl
            omega
        | update id2 v r =>
          simp only [runOp] at h1
          cases hu : AtomicUpdateReservoir s id2 v r with
          | none => rw [hu] at h1; cases h1
          | some u =>
            rw [hu] at h1
            simp only [Option.some.injEq] at h1
            have hcc : countCreates (Op.update id2 v r :: ops) =
                countCreates ops := rfl
            rcases update_result_cases s id2 v r u hWF hu with
              ⟨_, rfl⟩ | ⟨hlock2, _, res, hres2, rfl⟩
            · rw [← h1]
              simp only [UpdateResult.state]
              exact ⟨hlock, hres, hlt, by omega⟩
            · have hne : id ≠ id2 := fun he => hlock (he ▸ hlock2)
              rw [← h1]
              simp only [UpdateResult.state]
              refine ⟨hlock, ?_, hlt, by omega⟩
              rw [lookup_insertRes_ne _ _ _ _ hne]
              exact hres
        | endSession id2 =>
          simp only [runOp] at h1
          cases hu : AtomicEndReservoirSession s id2 with
          | none => rw [hu] at h1; cases h1
          | some e =>
            rw [hu] at h1
            simp only [Option.some.injEq] at h1
            have hcc : countCreates (Op.endSession id2 :: ops) =
                countCreates ops := rfl
            rcases end_result_cases s id2 e hWF hu with
              ⟨_, rfl⟩ | ⟨_, res, hres2, rfl⟩
            · rw [← h1]
              simp only [EndResult.state]
              exact ⟨hlock, hres, hlt, by omega⟩
            · rw [← h1]
              simp only [EndResult.state]
              refine ⟨?_, ?_, hlt, by omega⟩
              · intro hmem
                exact hlock ((mem_eraseLock _ _ _).mp hmem).1
              · by_cases he : id = id2
                · subst he
                  exact lookup_eraseRes_self _ _
                · rw [lookup_eraseRes_ne _ _ _ he]
                  exact hres
      exact ih s1 hWF1 hnext.1 hnext.2.1 hnext.2.2.1 hnext.2.2.2 s2 h

/-- C2: `UpdateSession` and `EndSession` fail with `NotFound` exactly
when the identifier has no entry in the store, that failure leaves the
store unchanged, no other failure mode (in particular no panic) exists,
and after a successful `EndSession` the identifier stays absent under
any further operations that do not exhaust the `uint64` counter, so
every subsequent update or end of that identifier fails with
`NotFound`. -/
theorem C2_notfound_semantics (s : ReservoirState) (hWF : WF s)
    (hF : Fresh s) (id : Nat) (v r : Int) (hr0 : 0 ≤ r) :
    ((∃ msg s1, AtomicUpdateReservoir s id v r =
        some (UpdateResult.notFound msg s1)) ↔
      lookupRes s.sessionToReservoir id = none) ∧
    (∀ msg s1, AtomicUpdateReservoir s id v r =
        some (UpdateResult.notFound msg s1) → s1 = s) ∧
    ((∃ msg s1, AtomicEndReservoirSession s id =
        some (EndResult.notFound msg s1)) ↔
      lookupRes s.sessionToReservoir id = none) ∧
    (∀ msg s1, AtomicEndReservoirSession s id =
        some (EndResult.notFound msg s1) → s1 = s) ∧
    AtomicUpdateReservoir s id v r ≠ none ∧
    AtomicEndReservoirSession s id ≠ none ∧
    (∀ d s1, AtomicEndReservoirSession s id = some (EndResult.ok d s1) →
      ∀ ops, s1.nextSessionID + countCreates ops < UINT64_CARD →
        ∀ s2, run s1 ops = some s2 →
          id ∉ s2.sessionToSessionLock ∧
          lookupRes s2.sessionToReservoir id = none ∧
          (∃ msg, AtomicUpdateReservoir s2 id v r =
            some (UpdateResult.notFound msg s2)) ∧
          (∃ msg, AtomicEndReservoirSession s2 id =
            some (EndResult.notFound msg s2))) := by
  have hmemiff : id ∈ s.sessionToSessionLock ↔
      lookupRes s.sessionToReservoir id ≠ none := by
    constructor
    · intro hm
      obtain ⟨res, hres⟩ := lookup_of_mem_lock s hWF id hm
      rw [hres]
      exact Option.some_ne_none _
    · intro hne
      obtain ⟨res, hres⟩ := Option.ne_none_iff_exists.mp hne
      exact mem_lock_of_lookup s hWF id res hres.symm
  refine ⟨?_, ?_, ?_, ?_, ?_, ?_, ?_⟩
  · constructor
    · rintro ⟨msg, s1, h⟩
      by_cases hm : id ∈ s.sessionToSessionLock
      · obtain ⟨res, hres⟩ := lookup_of_mem_lock s hWF id hm
        rw [update_eq_ok s id v r res hm hres
          (goodRes_of_lookup s hWF id res hres) hr0] at h
        cases h
      · by_contra hne
        exact hm (hmemiff.mpr hne)
    · intro hnone
      have hm : id ∉ s.sessionToSessionLock := fun hm =>
        (hmemiff.mp hm) hnone
      exact ⟨_, s, update_eq_notFound s id v r hm⟩
  · intro msg s1 h
    by_cases hm : id ∈ s.sessionToSessionLock
    · obtain ⟨res, hres⟩ := lookup_of_mem_lock s hWF id hm
      rw [update_eq_ok s id v r res hm hres
        (goodRes_of_lookup s hWF id res hres) hr0] at h
      cases h
    · rw [update_eq_notFound s id v r hm] at h
      injection h with h2
      injection h2 with _ h3
      exact h3.symm ▸ rfl
  · constructor
    · rintro ⟨msg, s1, h⟩
      by_cases hm : id ∈ s.sessionToSessionLock
      · obtain ⟨res, hres⟩ := lookup_of_mem_lock s hWF id hm
        rw [end_eq_ok s id res hm hres] at h
        cases h
      · by_contra hne
        exact hm (hmemiff.mpr hne)
    · intro hnone
      have hm : id ∉ s.sessionToSessionLock := fun hm =>
        (hmemiff.mp hm) hnone
      exact ⟨_, s, end_eq_notFound s id hm⟩
  · intro msg s1 h
    by_cases hm : id ∈ s.sessionToSessionLock
    · obtain ⟨res, hres⟩ := lookup_of_mem_lock s hWF id hm
      rw [end_eq_ok s id res hm hres] at h
      cases h
    · rw [end_eq_notFound s id hm] at h
      injection h with h2
      injection h2 with _ h3
      exact h3.symm ▸ rfl
  · by_cases hm : id ∈ s.sessionToSessionLock
    · obtain ⟨res, hres⟩ := lookup_of_mem_lock s hWF id hm
      rw [update_eq_ok s id v r res hm hres
        (goodRes_of_lookup s hWF id res hres) hr0]
      exact Option.some_ne_none _
    · rw [update_eq_notFound s id v r hm]
      exact Option.some_ne_none _
  · by_cases hm : id ∈ s.sessionToSessionLock
    · obtain ⟨res, hres⟩ := lookup_of_mem_lock s hWF id hm
      rw [end_eq_ok s id res hm hres]
      exact Option.some_ne_none _
    · rw [end_eq_notFound s id hm]
      exact Option.some_ne_none _
  · intro d s1 h ops hbound s2 hrun
    rcases end_result_cases s id (EndResult.ok d s1) hWF h with
      ⟨_, heq⟩ | ⟨hm, res, hres, heq⟩
    · cases heq
    · rw [EndResult.ok.injEq] at heq
      have hs1 := heq.2
      have hWF1 : WF s1 := hs1 ▸ wf_erase s id hWF
      have hlock1 : id ∉ s1.sessionToSessionLock := by
        rw [hs1]
        intro hmem
        exact ((mem_eraseLock _ _ _).mp hmem).2 rfl
      have hres1 : lookupRes s1.sessionToReservoir id = none := by
        rw [hs1]
        exact lookup_eraseRes_self _ _
      have hlt1 : id < s1.nextSessionID := by
        rw [hs1]
        exact hF.2 id hm
      obtain ⟨ha, hb, _⟩ := not_reused_aux id ops s1 hWF1 hlock1 hres1
        hlt1 hbound s2 hrun
      exact ⟨ha, hb, ⟨_, update_eq_notFound s2 id v r ha⟩,
        ⟨_, end_eq_notFound s2 id ha⟩⟩

/-- Witness for C2 at a concrete input: identifier 1 of `exState`,
value 5, drawn index 0. -/
theorem C2_witness :
    WF exState ∧ Fresh exState ∧ (0 : Int) ≤ 0 ∧
    (((∃ msg s1, AtomicUpdateReservoir exState 1 5 0 =
        some (UpdateResult.notFound msg s1)) ↔
      lookupRes exState.sessionToReservoir 1 = none) ∧
    (∀ msg s1, AtomicUpdateReservoir exState 1 5 0 =
        some (UpdateResult.notFound msg s1) → s1 = exState) ∧
    ((∃ msg s1, AtomicEndReservoirSession exState 1 =
        some (EndResult.notFound msg s1)) ↔
      lookupRes exState.sessionToReservoir 1 = none) ∧
    (∀ msg s1, AtomicEndReservoirSession exState 1 =
        some (EndResult.notFound msg s1) → s1 = exState) ∧
    AtomicUpdateReservoir exState 1 5 0 ≠ none ∧
    AtomicEndReservoirSession exState 1 ≠ none ∧
    (∀ d s1, AtomicEndReservoirSession exState 1 =
        some (EndResult.ok d s1) →
      ∀ ops, s1.nextSessionID + countCreates ops < UINT64_CARD →
        ∀ s2, run s1 ops = some s2 →
          1 ∉ s2.sessionToSessionLock ∧
          lookupRes s2.sessionToReservoir 1 = none ∧
          (∃ msg, AtomicUpdateReservoir s2 1 5 0 =
            some (UpdateResult.notFound msg s2)) ∧
          (∃ msg, AtomicEndReservoirSession s2 1 =
            some (EndResult.notFound msg s2)))) :=
  ⟨by decide, by decide, by decide,
    C2_notfound_semantics exState (by decide) (by decide) 1 5 0 (by decide)⟩

/-- C5 (code bug): two concurrent `AtomicGetSessionIDAndIncrement`
calls can return the same identifier. The Go body is the separate
atomic operations `Load` then `Add`; in the valid interleaving
Load-Load-Add-Add from counter 1, both callers observe 1, so two
concurrently created sessions receive the same identifier, violating
pairwise distinctness. -/
theorem C5_allocator_race :
    allocSchedValid
      [AllocStep.load1, AllocStep.load2, AllocStep.add1, AllocStep.add2] ∧
    (allocRaceRun (AllocRace.mk 1 none none)
      [AllocStep.load1, AllocStep.load2, AllocStep.add1,
        AllocStep.add2]).loaded1 = some 1 ∧
    (allocRaceRun (AllocRace.mk 1 none none)
      [AllocStep.load1, AllocStep.load2, AllocStep.add1,
        AllocStep.add2]).loaded2 = some 1 := by
  refine ⟨by decide, ?_, ?_⟩ <;> rfl

/-- C4 (code bug): two concurrent `AtomicUpdateReservoir` calls on the
same session can both enter the critical section, because the map read
`reservoirLock, found := state.sessionToSessionLock[sessionID]` copies
the `sync.RWMutex` value and each call locks only its private copy. In
the valid interleaving lock-lock-read-read-write-write-unlock-unlock
from `n = 3`, both calls apply, yet the final `n` is 4, not the
3 + 2 = 5 required by mutual exclusion with no lost updates. -/
theorem C4_update_race :
    updateSchedValid
      [UpdateStep.lockA, UpdateStep.lockB, UpdateStep.readA,
        UpdateStep.readB, UpdateStep.writeA, UpdateStep.writeB,
        UpdateStep.unlockA, UpdateStep.unlockB] ∧
    updateRaceRun (UpdateRace.mk 3 false none false none)
      [UpdateStep.lockA, UpdateStep.lockB, UpdateStep.readA,
        UpdateStep.readB, UpdateStep.writeA, UpdateStep.writeB,
        UpdateStep.unlockA, UpdateStep.unlockB] =
      some (UpdateRace.mk 4 false (some 3) false (some 3)) ∧
    (4 : Int) ≠ 3 + 2 := by
  refine ⟨by decide, by decide, by decide⟩

end ReservoirService
